import Mathlib

/-!
Verification of the long-term memory store engine
(`task/tools/memory/memory_store.py`).

Modelling conventions:
* Machine floats are modelled as rationals (`ℚ`); timestamps are rationals
  counting seconds, so Python's `timedelta(hours=24)` is the rational `86400`.
* The source L2-normalizes embedding vectors (float32) before taking inner
  products, so inner product equals cosine similarity.  The model stores the
  already-normalized vectors and computes plain inner products; on exactly
  unit-norm rational vectors the normalization step of the source is the
  identity, which is what every concrete input below uses.
* The FAISS exact index (`IndexFlatIP.search`) is modelled as: sort all
  candidate indices by similarity in descending order (ties broken by
  ascending index, matching the deterministic scan order of the flat index)
  and keep the first `k`.
* The `AsyncDial` persistence gateway is modelled by an oracle: the engine
  state carries the persisted snapshot (`storage`) next to the in-process
  `cache`, and each operation takes the fault outcome of its gateway calls
  as a parameter (`LoadFault`, `saveFails`, `deleteFails`).  The Python
  `except Exception` in `_load_memories` catches every failure kind alike,
  which the model reflects by collapsing all non-ok faults into the same
  fresh-collection branch.
* Python objects are mutable and aliased: `_load_memories` caches *the very
  object* it returns, so the in-place `collection.memories.append(...)` of
  `add_memory` (and the field updates of `_deduplicate_and_save` /
  `_save_memories`) are visible through the cache before any upload happens.
  The model makes this explicit by writing the mutated collection into the
  cache at each mutation point.
-/

namespace LTM

/-! ### Data model, deduplication algorithm, and engine operations -/

/-- `MemoryData` of `task/tools/memory/_models.py`: one stored fact without
its embedding. -/
structure MemoryData where
  id : Int
  content : String
  importance : ℚ
  category : String
  topics : List String
deriving DecidableEq, Repr

/-- `Memory`: a stored fact together with its embedding vector. -/
structure Memory where
  data : MemoryData
  embedding : List ℚ
deriving DecidableEq, Repr

instance : Inhabited Memory := ⟨⟨⟨0, "", 0, "", []⟩, []⟩⟩

/-- `MemoryCollection`: the full persisted state for one user. -/
structure MemoryCollection where
  memories : List Memory
  updated_at : ℚ
  last_deduplicated_at : Option ℚ
deriving DecidableEq, Repr

/-- Inner product of two vectors (the source computes it through FAISS on
L2-normalized float vectors; see the header comment). -/
def dotp (xs ys : List ℚ) : ℚ := (List.zipWith (· * ·) xs ys).sum

/-- Cosine similarity between the embeddings of records `i` and `j` of `ms`,
as used by `_deduplicate_fast`. -/
def simOf (ms : List Memory) (i j : ℕ) : ℚ :=
  dotp (ms.getD i default).embedding (ms.getD j default).embedding

/-- Importance of record `i` of `ms`. -/
def impOf (ms : List Memory) (i : ℕ) : ℚ := (ms.getD i default).data.importance

/-- Ranking relation of the modelled FAISS search: higher similarity first,
ties broken by ascending index. -/
def rankLe (s : ℕ → ℚ) (i j : ℕ) : Prop := s j < s i ∨ (s i = s j ∧ i ≤ j)

instance rankLe.instDecidable (s : ℕ → ℚ) : DecidableRel (rankLe s) := fun i j => by
  unfold rankLe; infer_instance

instance rankLe.instIsTotal (s : ℕ → ℚ) : IsTotal ℕ (rankLe s) := by
  constructor
  intro i j
  rcases lt_trichotomy (s i) (s j) with h | h | h
  · exact Or.inr (Or.inl h)
  · rcases Nat.le_total i j with hij | hij
    · exact Or.inl (Or.inr ⟨h, hij⟩)
    · exact Or.inr (Or.inr ⟨h.symm, hij⟩)
  · exact Or.inl (Or.inl h)

instance rankLe.instIsTrans (s : ℕ → ℚ) : IsTrans ℕ (rankLe s) := by
  constructor
  rintro i j k (h₁ | ⟨h₁, h₁'⟩) (h₂ | ⟨h₂, h₂'⟩)
  · exact Or.inl (h₂.trans h₁)
  · exact Or.inl (h₂ ▸ h₁)
  · exact Or.inl (h₁ ▸ h₂)
  · exact Or.inr ⟨h₁.trans h₂, h₁'.trans h₂'⟩

/-- The neighbor list the FAISS index returns for record `i` in
`_deduplicate_fast`: all indices sorted by similarity to `i` in descending
order, truncated to `min(len(memories), 20)` entries (the searched record
itself included). -/
def nbrs (ms : List Memory) (i : ℕ) : List ℕ :=
  ((List.range ms.length).insertionSort (rankLe (simOf ms i))).take (min ms.length 20)

/-- The similarity threshold `0.75` of `_deduplicate_fast`. -/
def threshold : ℚ := 3 / 4

/-- Inner loop of `_deduplicate_fast`: scan the neighbor list of record `i`,
skipping `i` itself and records already marked, marking the lower-importance
member of each pair above the threshold; when `i` itself is marked the scan
stops (`break`). -/
def innerScan (s : ℕ → ℕ → ℚ) (imp : ℕ → ℚ) (i : ℕ) : List ℕ → Finset ℕ → Finset ℕ
  | [], r => r
  | j :: rest, r =>
    if j = i ∨ j ∈ r then innerScan s imp i rest r
    else if threshold < s i j then
      if imp j ≤ imp i then innerScan s imp i rest (insert j r)
      else insert i r
    else innerScan s imp i rest r

/-- Outer loop of `_deduplicate_fast` over all record indices, skipping
records already marked for removal. -/
def outerScan (s : ℕ → ℕ → ℚ) (imp : ℕ → ℚ) (nb : ℕ → List ℕ) :
    List ℕ → Finset ℕ → Finset ℕ
  | [], r => r
  | i :: rest, r =>
    if i ∈ r then outerScan s imp nb rest r
    else outerScan s imp nb rest (innerScan s imp i (nb i) r)

/-- The `to_remove` set computed by `_deduplicate_fast`. -/
def to_remove (ms : List Memory) : Finset ℕ :=
  outerScan (simOf ms) (impOf ms) (nbrs ms) (List.range ms.length) ∅

/-- `_deduplicate_fast`: returns the input unchanged for at most one record,
otherwise the subsequence of records whose index was not marked. -/
def deduplicate_fast (ms : List Memory) : List Memory :=
  if ms.length ≤ 1 then ms
  else (ms.enum.filter (fun p => decide (p.1 ∉ to_remove ms))).map Prod.snd

/-- Outcome of the gateway `files.download` call: success, a transient I/O
failure, or undecodable content.  `_load_memories` wraps the whole
download-and-parse block in one `except Exception`, so every non-ok outcome
takes the same fresh-collection branch. -/
inductive LoadFault
  | ok
  | transientIOError
  | corruptData
deriving DecidableEq, Repr

/-- The state of one `LongTermMemoryStore` process plus the persisted bucket
object for the single resolved storage path. -/
structure EngineState where
  cache : Option MemoryCollection
  storage : Option MemoryCollection
deriving DecidableEq, Repr

/-- The fresh empty collection `_load_memories` builds when download or
parsing fails. -/
def freshCollection (now : ℚ) : MemoryCollection :=
  { memories := [], updated_at := now, last_deduplicated_at := none }

/-- `_load_memories`: cache hit returns the cached object (no download);
otherwise download and parse, falling back to a fresh empty collection on any
exception, and cache the result.  The returned collection is the very object
stored in the cache. -/
def load_memories (st : EngineState) (fault : LoadFault) (now : ℚ) :
    MemoryCollection × EngineState :=
  match st.cache with
  | some c => (c, st)
  | none =>
    let c :=
      match fault, st.storage with
      | LoadFault.ok, some stored => stored
      | _, _ => freshCollection now
    (c, { st with cache := some c })

/-- The record `add_memory` builds: id is the integral part of the creation
timestamp, embedding comes from the embedder. -/
def mk_memory (now : ℚ) (content : String) (importance : ℚ) (category : String)
    (topics : List String) (emb : List ℚ) : Memory :=
  { data :=
      { id := now.floor, content := content, importance := importance,
        category := category, topics := topics },
    embedding := emb }

/-- The collection as `add_memory` leaves it after the in-place append and
the in-place `updated_at` refresh of `_save_memories`. -/
def appendColl (c : MemoryCollection) (now : ℚ) (mem : Memory) : MemoryCollection :=
  { c with memories := c.memories ++ [mem], updated_at := now }

/-- `add_memory`: load (and cache) the collection, append the new record in
place — the cached object is the same object, so the append is visible in the
cache immediately — then `_save_memories`: refresh `updated_at` (again in
place), upload, and on success write the persisted snapshot.  A failing
upload raises, leaving cache and bucket as they are at that point. -/
def add_memory (st : EngineState) (fault : LoadFault) (saveFails : Bool)
    (now : ℚ) (content : String) (importance : ℚ) (category : String)
    (topics : List String) (emb : List ℚ) : EngineState × Except Unit String :=
  if saveFails then
    ({ (load_memories st fault now).2 with
        cache := some (appendColl (load_memories st fault now).1 now
          (mk_memory now content importance category topics emb)) },
      Except.error ())
  else
    (⟨some (appendColl (load_memories st fault now).1 now
        (mk_memory now content importance category topics emb)),
      some (appendColl (load_memories st fault now).1 now
        (mk_memory now content importance category topics emb))⟩,
      Except.ok ("Memory successfully stored: " ++ content))

/-- `DEDUP_INTERVAL_HOURS = 24` as seconds: `timedelta(hours=24)`. -/
def DEDUP_INTERVAL_SECONDS : ℚ := 86400

/-- `_needs_deduplication`: false for at most 10 memories; else true when
deduplication never ran or more than 24 hours ago. -/
def needs_deduplication (c : MemoryCollection) (now : ℚ) : Bool :=
  if c.memories.length ≤ 10 then false
  else
    match c.last_deduplicated_at with
    | none => true
    | some t => decide (DEDUP_INTERVAL_SECONDS < now - t)

/-- Similarity of the (normalized) query vector to record `i` of `ms`, as
computed through the FAISS index in `search_memories`. -/
def query_sim (qv : List ℚ) (ms : List Memory) (i : ℕ) : ℚ :=
  dotp qv (ms.getD i default).embedding

/-- The index lookup of `search_memories`: the `min(top_k, n)` record indices
most similar to the query, best first. -/
def search_ranked (qv : List ℚ) (ms : List Memory) (topK : ℕ) : List ℕ :=
  ((List.range ms.length).insertionSort (rankLe (query_sim qv ms))).take
    (min topK ms.length)

/-- The result-building loop of `search_memories`: keep only strictly
positive similarities. -/
def search_hits (qv : List ℚ) (ms : List Memory) (topK : ℕ) : List ℕ :=
  (search_ranked qv ms topK).filter (fun i => decide (0 < query_sim qv ms i))

/-- The `MemoryData` list `search_memories` returns. -/
def search_results (qv : List ℚ) (ms : List Memory) (topK : ℕ) : List MemoryData :=
  (search_hits qv ms topK).map (fun i => (ms.getD i default).data)

/-- The collection as `_deduplicate_and_save` leaves it: memories
deduplicated, `last_deduplicated_at` set, `updated_at` refreshed by
`_save_memories` — all in-place field writes on the cached object. -/
def dedupColl (c : MemoryCollection) (now : ℚ) : MemoryCollection :=
  { c with
    memories := deduplicate_fast c.memories,
    last_deduplicated_at := some now,
    updated_at := now }

/-- `search_memories`: load; empty collection short-circuits to `[]`; if
deduplication is due, `_deduplicate_and_save` rewrites the collection fields
in place (visible through the cache) and uploads — a failing upload raises —
then the (possibly deduplicated) memories are searched. -/
def search_memories (st : EngineState) (fault : LoadFault) (saveFails : Bool)
    (now : ℚ) (qv : List ℚ) (topK : ℕ) :
    EngineState × Except Unit (List MemoryData) :=
  if (load_memories st fault now).1.memories = [] then
    ((load_memories st fault now).2, Except.ok [])
  else if needs_deduplication (load_memories st fault now).1 now then
    if saveFails then
      ({ (load_memories st fault now).2 with
          cache := some (dedupColl (load_memories st fault now).1 now) },
        Except.error ())
    else
      (⟨some (dedupColl (load_memories st fault now).1 now),
        some (dedupColl (load_memories st fault now).1 now)⟩,
        Except.ok (search_results qv
          (dedupColl (load_memories st fault now).1 now).memories topK))
  else
    ((load_memories st fault now).2,
      Except.ok (search_results qv (load_memories st fault now).1.memories topK))

/-- `delete_all_memories`: attempt to delete the bucket object, swallowing
every exception (absence or transient failure alike), clear the cache entry,
and report success unconditionally. -/
def delete_all_memories (st : EngineState) (deleteFails : Bool) :
    EngineState × String :=
  ({ (if deleteFails then st else { st with storage := none }) with
      cache := none },
    "All long-term memories have been successfully deleted.")

/-- Record with importance `0.9`; its embedding is the first unit vector. -/
def memA : Memory :=
  ⟨⟨1, "likes espresso", 9 / 10, "preferences", []⟩, [1, 0, 0, 0]⟩

/-- Record with importance `0.5`; unit vector at cosine similarity exactly
`0.9` to `memA`'s embedding (`(9/10)^2+(3/10)^2+(3/10)^2+(1/10)^2 = 1`). -/
def memB : Memory :=
  ⟨⟨2, "enjoys espresso", 1 / 2, "preferences", []⟩, [9 / 10, 3 / 10, 3 / 10, 1 / 10]⟩

/-- Head of the 21-record list: unit vector `(3/5, 4/5)`, importance 1. -/
def dupHead : Memory := ⟨⟨1, "Paris resident", 1, "personal", []⟩, [3 / 5, 4 / 5]⟩

/-- Tail of the 21-record list: unit vector `(4/5, 3/5)`, importance `3/4`;
cosine similarity to `dupHead` is `24/25 > 0.75`. -/
def dupTail : Memory := ⟨⟨2, "based in Paris", 3 / 4, "personal", []⟩, [4 / 5, 3 / 5]⟩

/-- Cluster record: unit vector `(20/29, 21/29)`, similarity `144/145` to
`dupHead` and `143/145` to `dupTail`, both above their mutual `24/25`. -/
def dupMid : Memory := ⟨⟨3, "lives in Paris", 1 / 2, "personal", []⟩, [20 / 29, 21 / 29]⟩

/-- 21 records: with the neighbor cap at `min(21, 20) = 20`, `dupHead` and
`dupTail` never see each other (19 closer records each), so both survive the
first pass with similarity `24/25 > 0.75`. -/
def dupList : List Memory := dupHead :: (List.replicate 19 dupMid ++ [dupTail])

/-- A state whose cache and bucket both hold the empty collection. -/
def cachedEmptyState : EngineState :=
  ⟨some (freshCollection 0), some (freshCollection 0)⟩

/-- A state with nothing cached and one persisted record. -/
def storedState : EngineState :=
  ⟨none, some { memories := [memA], updated_at := 0, last_deduplicated_at := none }⟩

/-- The collection left in the cache by the failing add of the C4
counterexample. -/
def appendedColl : MemoryCollection :=
  { memories := [mk_memory 7 "has a cat" (1 / 2) "context" [] [1]],
    updated_at := 7,
    last_deduplicated_at := none }

/-- Every record of the collection has importance within `[0, 1]`. -/
def GoodColl (c : MemoryCollection) : Prop :=
  ∀ m ∈ c.memories, 0 ≤ m.data.importance ∧ m.data.importance ≤ 1

/-- Both the cached and the persisted collection, when present, satisfy the
importance range invariant. -/
def GoodState (st : EngineState) : Prop :=
  (∀ c, st.cache = some c → GoodColl c)
  ∧ (∀ c, st.storage = some c → GoodColl c)

/-- States reachable through the engine operations from the empty state,
where every `add` supplies an importance within `[0, 1]` (the engine itself
performs no range validation). -/
inductive Reachable : EngineState → Prop
  | init : Reachable ⟨none, none⟩
  | add (st : EngineState) (fault : LoadFault) (saveFails : Bool) (now : ℚ)
      (content : String) (importance : ℚ) (category : String)
      (topics : List String) (emb : List ℚ) :
      Reachable st → 0 ≤ importance → importance ≤ 1 →
      Reachable (add_memory st fault saveFails now content importance
        category topics emb).1
  | search (st : EngineState) (fault : LoadFault) (saveFails : Bool)
      (now : ℚ) (qv : List ℚ) (topK : ℕ) :
      Reachable st →
      Reachable (search_memories st fault saveFails now qv topK).1
  | delete (st : EngineState) (deleteFails : Bool) :
      Reachable st → Reachable (delete_all_memories st deleteFails).1

/-! ### Lemmas and claim theorems -/

lemma innerScan_subset (s : ℕ → ℕ → ℚ) (imp : ℕ → ℚ) (i : ℕ) (js : List ℕ) :
    ∀ r : Finset ℕ, r ⊆ innerScan s imp i js r := by
  induction js with
  | nil => intro r; simp [innerScan]
  | cons j rest ih =>
    intro r
    simp only [innerScan]
    split_ifs with h1 h2 h3
    · exact ih r
    · exact (Finset.subset_insert j r).trans (ih _)
    · exact Finset.subset_insert i r
    · exact ih r

lemma outerScan_subset (s : ℕ → ℕ → ℚ) (imp : ℕ → ℚ) (nb : ℕ → List ℕ)
    (idxs : List ℕ) : ∀ r : Finset ℕ, r ⊆ outerScan s imp nb idxs r := by
  induction idxs with
  | nil => intro r; simp [outerScan]
  | cons a rest ih =>
    intro r
    simp only [outerScan]
    split_ifs with h1
    · exact ih r
    · exact (innerScan_subset s imp a (nb a) r).trans (ih _)

/-- If the outer record `i` never got marked while its neighbor list was
scanned, then every neighbor above the threshold did get marked. -/
lemma innerScan_marks (s : ℕ → ℕ → ℚ) (imp : ℕ → ℚ) (i : ℕ) (js : List ℕ) :
    ∀ r j, i ∉ innerScan s imp i js r → j ∈ js → j ≠ i →
      threshold < s i j → j ∈ innerScan s imp i js r := by
  induction js with
  | nil => simp
  | cons k rest ih =>
    intro r j hi hj hji hsim
    simp only [innerScan] at hi ⊢
    rcases List.mem_cons.mp hj with rfl | hj'
    · split_ifs at hi ⊢ with h1 h2
      · exact innerScan_subset s imp i rest r (h1.resolve_left hji)
      · exact innerScan_subset s imp i rest _ (Finset.mem_insert_self j r)
      · exact absurd (Finset.mem_insert_self i r) hi
    · split_ifs at hi ⊢ with h1 h2 h3
      · exact ih r j hi hj' hji hsim
      · exact ih _ j hi hj' hji hsim
      · exact absurd (Finset.mem_insert_self i r) hi
      · exact ih r j hi hj' hji hsim

/-- If `i` is an outer-loop index that survives the whole pass, every
neighbor of `i` above the threshold is marked by the end of the pass. -/
lemma outerScan_marks (s : ℕ → ℕ → ℚ) (imp : ℕ → ℚ) (nb : ℕ → List ℕ)
    (idxs : List ℕ) : ∀ r i j, i ∈ idxs → i ∉ outerScan s imp nb idxs r →
      j ∈ nb i → j ≠ i → threshold < s i j → j ∈ outerScan s imp nb idxs r := by
  induction idxs with
  | nil => simp
  | cons a rest ih =>
    intro r i j hmem hni hj hji hsim
    simp only [outerScan] at hni ⊢
    rcases List.mem_cons.mp hmem with rfl | hmem'
    · split_ifs at hni ⊢ with h1
      · exact absurd (outerScan_subset s imp nb rest r h1) hni
      · have hi2 : i ∉ innerScan s imp i (nb i) r := fun hc =>
          hni (outerScan_subset s imp nb rest _ hc)
        exact outerScan_subset s imp nb rest _
          (innerScan_marks s imp i (nb i) r j hi2 hj hji hsim)
    · split_ifs at hni ⊢ with h1
      · exact ih r i j hmem' hni hj hji hsim
      · exact ih _ i j hmem' hni hj hji hsim

/-- When no neighbor exceeds the threshold the inner scan marks nothing. -/
lemma innerScan_far (s : ℕ → ℕ → ℚ) (imp : ℕ → ℚ) (i : ℕ) (js : List ℕ)
    (h : ∀ j ∈ js, j ≠ i → s i j ≤ threshold) :
    ∀ r, innerScan s imp i js r = r := by
  induction js with
  | nil => intro r; simp [innerScan]
  | cons k rest ih =>
    intro r
    simp only [innerScan]
    have hrest : ∀ j ∈ rest, j ≠ i → s i j ≤ threshold := fun j hj =>
      h j (List.mem_cons_of_mem k hj)
    split_ifs with h1 h2 h3
    · exact ih hrest r
    · exact absurd h2 (not_lt.mpr (h k (List.mem_cons_self k rest)
        (fun hk => h1 (Or.inl hk))))
    · exact absurd h2 (not_lt.mpr (h k (List.mem_cons_self k rest)
        (fun hk => h1 (Or.inl hk))))
    · exact ih hrest r

/-- When no pair in any neighbor list exceeds the threshold the whole pass
marks nothing. -/
lemma outerScan_far (s : ℕ → ℕ → ℚ) (imp : ℕ → ℚ) (nb : ℕ → List ℕ)
    (idxs : List ℕ)
    (h : ∀ i ∈ idxs, ∀ j ∈ nb i, j ≠ i → s i j ≤ threshold) :
    ∀ r, outerScan s imp nb idxs r = r := by
  induction idxs with
  | nil => intro r; simp [outerScan]
  | cons a rest ih =>
    intro r
    have hrest : ∀ i ∈ rest, ∀ j ∈ nb i, j ≠ i → s i j ≤ threshold :=
      fun i hi => h i (List.mem_cons_of_mem a hi)
    simp only [outerScan]
    split_ifs with h1
    · exact ih hrest r
    · rw [innerScan_far s imp a (nb a) (h a (List.mem_cons_self a rest)) r]
      exact ih hrest r

/-- With at most 20 records the neighbor list of any record contains every
record index. -/
lemma mem_nbrs_of_le20 (ms : List Memory) (h20 : ms.length ≤ 20) (i j : ℕ)
    (hj : j < ms.length) : j ∈ nbrs ms i := by
  unfold nbrs
  have hperm := List.perm_insertionSort (rankLe (simOf ms i)) (List.range ms.length)
  have hlen : ((List.range ms.length).insertionSort (rankLe (simOf ms i))).length
      = ms.length := by rw [hperm.length_eq, List.length_range]
  rw [Nat.min_eq_left h20, List.take_of_length_le (le_of_eq hlen)]
  exact hperm.mem_iff.mpr (List.mem_range.mpr hj)

/-- Every index in a neighbor list is a valid record index. -/
lemma mem_nbrs_lt (ms : List Memory) (i j : ℕ) (hj : j ∈ nbrs ms i) :
    j < ms.length := by
  unfold nbrs at hj
  have hj2 := List.mem_of_mem_take hj
  have hperm := List.perm_insertionSort (rankLe (simOf ms i)) (List.range ms.length)
  exact List.mem_range.mp (hperm.mem_iff.mp hj2)

/-- With at most 20 records, two records that both survive a deduplication
pass are never more similar than the threshold. -/
lemma sim_le_of_kept (ms : List Memory) (h20 : ms.length ≤ 20) {i j : ℕ}
    (hi : i < ms.length) (hj : j < ms.length) (hne : i ≠ j)
    (hri : i ∉ to_remove ms) (hrj : j ∉ to_remove ms) :
    simOf ms i j ≤ threshold := by
  by_contra hgt
  push_neg at hgt
  exact hrj (outerScan_marks (simOf ms) (impOf ms) (nbrs ms)
    (List.range ms.length) ∅ i j (List.mem_range.mpr hi) hri
    (mem_nbrs_of_le20 ms h20 i j hj) (Ne.symm hne) hgt)

/-- If all distinct pairs are at or below the threshold, nothing is marked. -/
lemma to_remove_eq_empty (ms : List Memory)
    (h : ∀ i j, i < ms.length → j < ms.length → i ≠ j → simOf ms i j ≤ threshold) :
    to_remove ms = ∅ := by
  unfold to_remove
  exact outerScan_far (simOf ms) (impOf ms) (nbrs ms) (List.range ms.length)
    (fun i hi j hj hji => h i j (List.mem_range.mp hi) (mem_nbrs_lt ms i j hj)
      (Ne.symm hji)) ∅

/-- A pass that marks nothing returns the list unchanged. -/
lemma deduplicate_fast_of_no_removal (ms : List Memory)
    (h : to_remove ms = ∅) : deduplicate_fast ms = ms := by
  unfold deduplicate_fast
  split_ifs with hlen
  · rfl
  · rw [h]
    simp [List.enum]

/-- The deduplicated list is a subsequence of the original list. -/
lemma deduplicate_fast_sublist (ms : List Memory) :
    List.Sublist (deduplicate_fast ms) ms := by
  unfold deduplicate_fast
  split_ifs with hlen
  · exact List.Sublist.refl ms
  · have h1 := (List.filter_sublist (p := fun p => decide (p.1 ∉ to_remove ms))
      ms.enum).map Prod.snd
    simpa [List.enum] using h1

/-- With at most 20 records, two distinct positions of the deduplicated list
are never more similar than the threshold: their underlying original indices
are distinct surviving indices. -/
lemma dedup_pair_far (ms : List Memory) (h20 : ms.length ≤ 20) :
    ∀ a b, a < (deduplicate_fast ms).length → b < (deduplicate_fast ms).length →
      a ≠ b → simOf (deduplicate_fast ms) a b ≤ threshold := by
  intro a b ha hb hab
  by_cases hlen : ms.length ≤ 1
  · exfalso
    have h1 : (deduplicate_fast ms).length ≤ 1 := by
      unfold deduplicate_fast
      rw [if_pos hlen]
      exact hlen
    omega
  · have hdedup : deduplicate_fast ms
        = (ms.enum.filter (fun p => decide (p.1 ∉ to_remove ms))).map Prod.snd := by
      unfold deduplicate_fast
      rw [if_neg hlen]
    set E := ms.enum.filter (fun p => decide (p.1 ∉ to_remove ms)) with hE
    have haE : a < E.length := by rw [hdedup, List.length_map] at ha; exact ha
    have hbE : b < E.length := by rw [hdedup, List.length_map] at hb; exact hb
    have hmemA := List.mem_filter.mp (List.getElem_mem haE)
    have hmemB := List.mem_filter.mp (List.getElem_mem hbE)
    have hremA : (E[a]).1 ∉ to_remove ms := by simpa using hmemA.2
    have hremB : (E[b]).1 ∉ to_remove ms := by simpa using hmemB.2
    obtain ⟨hltA, hvalA⟩ := List.getElem?_eq_some_iff.mp
      (List.mem_enum_iff_getElem?.mp hmemA.1)
    obtain ⟨hltB, hvalB⟩ := List.getElem?_eq_some_iff.mp
      (List.mem_enum_iff_getElem?.mp hmemB.1)
    have haM : a < (E.map Prod.fst).length := by rw [List.length_map]; exact haE
    have hbM : b < (E.map Prod.fst).length := by rw [List.length_map]; exact hbE
    have hfstne : (E[a]).1 ≠ (E[b]).1 := by
      intro hc
      apply hab
      have hnodup : (E.map Prod.fst).Nodup :=
        (List.nodup_enum_map_fst ms).sublist ((List.filter_sublist ms.enum).map Prod.fst)
      have hmapEq : (E.map Prod.fst)[a] = (E.map Prod.fst)[b] := by
        rw [List.getElem_map, List.getElem_map]
        exact hc
      exact hnodup.getElem_inj_iff.mp hmapEq
    have hsim : simOf (deduplicate_fast ms) a b
        = simOf ms (E[a]).1 (E[b]).1 := by
      unfold simOf
      rw [hdedup]
      rw [List.getD_eq_getElem _ _ (by rw [List.length_map]; exact haE),
        List.getD_eq_getElem _ _ (by rw [List.length_map]; exact hbE),
        List.getElem_map, List.getElem_map,
        List.getD_eq_getElem _ _ hltA, List.getD_eq_getElem _ _ hltB,
        hvalA, hvalB]
    rw [hsim]
    exact sim_le_of_kept ms h20 hltA hltB hfstne hremA hremB

/-- For a collection of at most 20 memories a second deduplication pass is a
no-op. -/
lemma deduplicate_fast_idem (ms : List Memory) (h20 : ms.length ≤ 20) :
    deduplicate_fast (deduplicate_fast ms) = deduplicate_fast ms := by
  apply deduplicate_fast_of_no_removal
  apply to_remove_eq_empty
  intro i j hi hj hij
  exact dedup_pair_far ms h20 i j hi hj hij

lemma load_memories_storage (st : EngineState) (fault : LoadFault) (now : ℚ) :
    (load_memories st fault now).2.storage = st.storage := by
  unfold load_memories
  cases st.cache <;> rfl

lemma load_memories_cache_hit (st : EngineState) (fault : LoadFault) (now : ℚ)
    (c : MemoryCollection) (h : st.cache = some c) :
    load_memories st fault now = (c, st) := by
  unfold load_memories
  rw [h]

/-- `_needs_deduplication` is `true` exactly when both gating conditions of
the source hold. -/
lemma needs_dedup_iff (c : MemoryCollection) (now : ℚ) :
    needs_deduplication c now = true
      ↔ 10 < c.memories.length
        ∧ (c.last_deduplicated_at = none
          ∨ ∃ t, c.last_deduplicated_at = some t
              ∧ DEDUP_INTERVAL_SECONDS < now - t) := by
  unfold needs_deduplication
  split_ifs with h
  · simp [Nat.not_lt.mpr h]
  · cases hlast : c.last_deduplicated_at with
    | none => simp [Nat.lt_of_not_le h]
    | some t =>
      simp only [decide_eq_true_eq]
      constructor
      · intro ht
        exact ⟨Nat.lt_of_not_le h, Or.inr ⟨t, rfl, ht⟩⟩
      · rintro ⟨-, hcase⟩
        rcases hcase with hnone | ⟨t', ht', hgt⟩
        · exact absurd hnone (by simp)
        · rw [Option.some.injEq] at ht'
          exact ht' ▸ hgt

lemma needs_dedup_le10 (c : MemoryCollection) (now : ℚ)
    (h : c.memories.length ≤ 10) : needs_deduplication c now = false := by
  unfold needs_deduplication
  rw [if_pos h]

lemma needs_dedup_recent (c : MemoryCollection) (now t : ℚ)
    (h : c.last_deduplicated_at = some t)
    (hle : now - t ≤ DEDUP_INTERVAL_SECONDS) :
    needs_deduplication c now = false := by
  unfold needs_deduplication
  split_ifs with h10
  · rfl
  · rw [h]
    simp [not_lt.mpr hle]

/-- `add_memory` only appends: the cached collection afterwards is the loaded
collection with the single new record appended and `updated_at` refreshed —
in particular `last_deduplicated_at` is untouched and no record is removed. -/
lemma add_memory_cache (st : EngineState) (fault : LoadFault) (saveFails : Bool)
    (now : ℚ) (content : String) (importance : ℚ) (category : String)
    (topics : List String) (emb : List ℚ) :
    (add_memory st fault saveFails now content importance category topics emb).1.cache
      = some (appendColl (load_memories st fault now).1 now
          (mk_memory now content importance category topics emb)) := by
  unfold add_memory
  cases saveFails <;> rfl

/-- A search that does not trigger deduplication leaves the state unchanged
and returns the plain search results. -/
lemma search_no_dedup (st : EngineState) (fault : LoadFault) (saveFails : Bool)
    (now : ℚ) (qv : List ℚ) (topK : ℕ) (c : MemoryCollection)
    (hc : st.cache = some c) (hne : c.memories ≠ [])
    (hnd : needs_deduplication c now = false) :
    search_memories st fault saveFails now qv topK
      = (st, Except.ok (search_results qv c.memories topK)) := by
  unfold search_memories
  rw [load_memories_cache_hit st fault now c hc]
  simp [hne, hnd]

/-- A search that does trigger deduplication leaves the deduplicated
collection — `last_deduplicated_at := now` — in the cache, whether or not
the upload succeeds. -/
lemma search_dedup_cache (st : EngineState) (fault : LoadFault)
    (saveFails : Bool) (now : ℚ) (qv : List ℚ) (topK : ℕ)
    (c : MemoryCollection) (hc : st.cache = some c)
    (hd : needs_deduplication c now = true) :
    (search_memories st fault saveFails now qv topK).1.cache
      = some (dedupColl c now) := by
  have hne : c.memories ≠ [] := by
    intro hnil
    rw [needs_dedup_le10 c now (by rw [hnil]; simp)] at hd
    exact Bool.false_ne_true hd
  unfold search_memories
  rw [load_memories_cache_hit st fault now c hc]
  simp only [hne, hd, if_neg, if_pos, if_true, if_false]
  cases saveFails <;> rfl

/-- A search that loads an empty collection returns `ok []` and performs no
write beyond caching the loaded collection. -/
lemma search_empty (st : EngineState) (fault : LoadFault) (saveFails : Bool)
    (now : ℚ) (qv : List ℚ) (topK : ℕ)
    (h : (load_memories st fault now).1.memories = []) :
    search_memories st fault saveFails now qv topK
      = ((load_memories st fault now).2, Except.ok []) := by
  unfold search_memories
  simp [h]

lemma search_ranked_pairwise (qv : List ℚ) (ms : List Memory) (topK : ℕ) :
    (search_ranked qv ms topK).Pairwise (rankLe (query_sim qv ms)) := by
  unfold search_ranked
  exact List.Pairwise.sublist (List.take_sublist _ _)
    (List.sorted_insertionSort (rankLe (query_sim qv ms)) (List.range ms.length))

lemma search_hits_sublist_ranked (qv : List ℚ) (ms : List Memory) (topK : ℕ) :
    List.Sublist (search_hits qv ms topK) (search_ranked qv ms topK) :=
  List.filter_sublist _

lemma search_hits_length_le (qv : List ℚ) (ms : List Memory) (topK : ℕ) :
    (search_hits qv ms topK).length
      ≤ min topK (((List.range ms.length).filter
          (fun i => decide (0 < query_sim qv ms i))).length) := by
  apply le_min
  · calc (search_hits qv ms topK).length
        ≤ (search_ranked qv ms topK).length :=
          (search_hits_sublist_ranked qv ms topK).length_le
      _ ≤ min topK ms.length := by
          unfold search_ranked
          rw [List.length_take]
          exact min_le_left _ _
      _ ≤ topK := min_le_left _ _
  · have h1 : List.Sublist (search_hits qv ms topK)
        (((List.range ms.length).insertionSort
          (rankLe (query_sim qv ms))).filter
            (fun i => decide (0 < query_sim qv ms i))) := by
      unfold search_hits search_ranked
      exact (List.take_sublist _ _).filter _
    calc (search_hits qv ms topK).length
        ≤ _ := h1.length_le
      _ = ((List.range ms.length).filter
            (fun i => decide (0 < query_sim qv ms i))).length := by
          rw [← List.countP_eq_length_filter, ← List.countP_eq_length_filter]
          exact (List.perm_insertionSort (rankLe (query_sim qv ms))
            (List.range ms.length)).countP_eq _

lemma search_hits_sorted (qv : List ℚ) (ms : List Memory) (topK : ℕ) :
    ((search_hits qv ms topK).map (query_sim qv ms)).Pairwise (· ≥ ·) := by
  rw [List.pairwise_map]
  have h1 : (search_hits qv ms topK).Pairwise (rankLe (query_sim qv ms)) :=
    List.Pairwise.sublist (search_hits_sublist_ranked qv ms topK)
      (search_ranked_pairwise qv ms topK)
  refine h1.imp ?_
  rintro a b (h | ⟨h, -⟩)
  · exact le_of_lt h
  · exact le_of_eq h.symm

lemma search_hits_pos (qv : List ℚ) (ms : List Memory) (topK : ℕ) :
    ∀ i ∈ search_hits qv ms topK, 0 < query_sim qv ms i := by
  intro i hi
  have h := (List.mem_filter.mp hi).2
  simpa using h

unseal Rat.add Rat.mul Rat.inv Rat.sub in
/-- C1: In deduplication, when the scan of outer record `i` reaches a
neighbor `j ≠ i` not yet marked, with similarity strictly above `0.75`, the
lower-importance record is marked — `importance[i] >= importance[j]` marks
`j` and the scan continues, otherwise `i` is marked and the scan of `i`'s
neighbors stops; consequently, if `i` is never marked, every such neighbor
`j` is marked.  For the concrete two-record collection with cosine
similarity `0.9` and importances `0.9` and `0.5`, deduplication keeps
exactly the importance-`0.9` record. -/
theorem dedup_marks_lower_importance :
    (∀ s imp i js r j, i ∉ innerScan s imp i js r → j ∈ js → j ≠ i →
      threshold < s i j → j ∈ innerScan s imp i js r)
    ∧ (∀ s imp i j rest r, ¬(j = i ∨ j ∈ r) → threshold < s i j →
      imp j ≤ imp i →
      innerScan s imp i (j :: rest) r = innerScan s imp i rest (insert j r))
    ∧ (∀ s imp i j rest r, ¬(j = i ∨ j ∈ r) → threshold < s i j →
      ¬imp j ≤ imp i → innerScan s imp i (j :: rest) r = insert i r)
    ∧ deduplicate_fast [memA, memB] = [memA] := by
  refine ⟨fun s imp i js r j => innerScan_marks s imp i js r j, ?_, ?_, by decide⟩
  · intro s imp i j rest r h1 h2 h3
    simp only [innerScan]
    rw [if_neg h1, if_pos h2, if_pos h3]
  · intro s imp i j rest r h1 h2 h3
    simp only [innerScan]
    rw [if_neg h1, if_pos h2, if_neg h3]

unseal Rat.add Rat.mul Rat.inv Rat.sub in
/-- Witness for C1 at concrete inputs: with constant similarity 1 and
constant importance, the outer record 0 survives the scan of `[1]` and its
neighbor 1 is marked. -/
theorem dedup_marks_lower_importance_witness :
    0 ∉ innerScan (fun _ _ => 1) (fun _ => 0) 0 [1] ∅
    ∧ 1 ∈ innerScan (fun _ _ => 1) (fun _ => 0) 0 [1] ∅ :=
  ⟨by decide,
    dedup_marks_lower_importance.1 (fun _ _ => 1) (fun _ => 0) 0 [1] ∅ 1
      (by decide) (by decide) (by decide) (by decide)⟩

/-- C6: the result of `_deduplicate_fast` is the subsequence of the original
records whose index was never marked for removal: for more than one record
it is exactly the index-filtered subsequence, for at most one record the
input itself, and in every case a sublist of the input — original relative
order preserved and surviving records unmodified. -/
theorem dedup_result_subsequence :
    ∀ ms : List Memory, List.Sublist (deduplicate_fast ms) ms
    ∧ (1 < ms.length → deduplicate_fast ms
        = (ms.enum.filter (fun p => decide (p.1 ∉ to_remove ms))).map Prod.snd)
    ∧ (ms.length ≤ 1 → deduplicate_fast ms = ms) := by
  intro ms
  refine ⟨deduplicate_fast_sublist ms, fun h => ?_, fun h => ?_⟩
  · unfold deduplicate_fast
    rw [if_neg (by omega)]
  · unfold deduplicate_fast
    rw [if_pos h]

/-- Witness for C6 at the two-record collection of C1. -/
theorem dedup_result_subsequence_witness :
    List.Sublist (deduplicate_fast [memA, memB]) [memA, memB]
    ∧ 1 < ([memA, memB] : List Memory).length
    ∧ deduplicate_fast [memA, memB]
      = (([memA, memB] : List Memory).enum.filter
          (fun p => decide (p.1 ∉ to_remove [memA, memB]))).map Prod.snd :=
  ⟨(dedup_result_subsequence [memA, memB]).1, by decide,
    (dedup_result_subsequence [memA, memB]).2.1 (by decide)⟩

unseal Rat.add Rat.mul Rat.inv Rat.sub in
/-- C7 counterexample: deduplication is not idempotent.  On the 21-record
collection `dupList` the neighbor cap `min(21, 20) = 20` hides the pair
`(dupHead, dupTail)` (similarity `24/25 > 0.75`) during the first pass —
each of the two has 19 strictly closer records filling its capped neighbor
list — so both survive; the second pass, now on 2 records, removes
`dupTail`. -/
theorem dedup_not_idempotent_at_21 :
    deduplicate_fast (deduplicate_fast dupList) ≠ deduplicate_fast dupList
    ∧ deduplicate_fast dupList = [dupHead, dupTail]
    ∧ deduplicate_fast (deduplicate_fast dupList) = [dupHead] := by
  refine ⟨?_, by decide, by decide⟩
  decide

/-- C7 amended: for every list of at most 20 records — so the neighbor list
of every record covers the whole collection — a second deduplication pass
with no writes in between returns exactly the list the first pass
produced. -/
theorem dedup_idempotent_le20 :
    ∀ ms : List Memory, ms.length ≤ 20 →
      deduplicate_fast (deduplicate_fast ms) = deduplicate_fast ms :=
  fun ms h20 => deduplicate_fast_idem ms h20

/-- Witness for the amended C7 at the two-record collection. -/
theorem dedup_idempotent_le20_witness :
    ([memA, memB] : List Memory).length ≤ 20
    ∧ deduplicate_fast (deduplicate_fast [memA, memB])
      = deduplicate_fast [memA, memB] :=
  ⟨by decide, dedup_idempotent_le20 [memA, memB] (by decide)⟩

/-- C2: deduplication never runs during `add` — the cached collection after
an `add` is exactly the loaded one with the new record appended, its
`last_deduplicated_at` untouched — and during `search` it runs if and only
if the collection has more than 10 memories and deduplication either never
ran or ran more than 24 hours ago; it never runs on at most 10 memories and
never within 24 hours of a prior run. -/
theorem dedup_trigger_gating :
    (∀ c now, needs_deduplication c now = true
      ↔ 10 < c.memories.length
        ∧ (c.last_deduplicated_at = none
          ∨ ∃ t, c.last_deduplicated_at = some t
              ∧ DEDUP_INTERVAL_SECONDS < now - t))
    ∧ (∀ c now, c.memories.length ≤ 10 → needs_deduplication c now = false)
    ∧ (∀ c now t, c.last_deduplicated_at = some t →
        now - t ≤ DEDUP_INTERVAL_SECONDS → needs_deduplication c now = false)
    ∧ (∀ st fault saveFails now content importance category topics emb,
        (add_memory st fault saveFails now content importance category
            topics emb).1.cache
          = some (appendColl (load_memories st fault now).1 now
              (mk_memory now content importance category topics emb)))
    ∧ (∀ st fault saveFails now qv topK c, st.cache = some c →
        c.memories ≠ [] → needs_deduplication c now = false →
        search_memories st fault saveFails now qv topK
          = (st, Except.ok (search_results qv c.memories topK)))
    ∧ (∀ st fault saveFails now qv topK c, st.cache = some c →
        needs_deduplication c now = true →
        (search_memories st fault saveFails now qv topK).1.cache
          = some (dedupColl c now)) :=
  ⟨needs_dedup_iff, needs_dedup_le10, needs_dedup_recent, add_memory_cache,
    fun st fault sf now qv k c hc hne hnd =>
      search_no_dedup st fault sf now qv k c hc hne hnd,
    fun st fault sf now qv k c hc hd =>
      search_dedup_cache st fault sf now qv k c hc hd⟩

/-- Witness for C2: the empty collection never needs deduplication, and a
collection deduplicated at time 0 does not need it again at time 86400. -/
theorem dedup_trigger_gating_witness :
    needs_deduplication (freshCollection 0) 99999 = false
    ∧ needs_deduplication
        { memories := [], updated_at := 0, last_deduplicated_at := some 0 }
        86400 = false :=
  ⟨dedup_trigger_gating.2.1 (freshCollection 0) 99999 (by simp [freshCollection]),
    dedup_trigger_gating.2.2.1 _ 86400 0 rfl (by norm_num [DEDUP_INTERVAL_SECONDS])⟩

/-- C3: search returns at most `min(topK, number of records with strictly
positive similarity)` hits, in non-increasing similarity order, excluding
every record with similarity at or below zero, and a search that loads an
empty collection returns the empty list without error. -/
theorem search_topk_sorted_positive :
    (∀ qv ms topK, (search_hits qv ms topK).length
      ≤ min topK (((List.range ms.length).filter
          (fun i => decide (0 < query_sim qv ms i))).length))
    ∧ (∀ qv ms topK,
        ((search_hits qv ms topK).map (query_sim qv ms)).Pairwise (· ≥ ·))
    ∧ (∀ qv ms topK i, i ∈ search_hits qv ms topK → 0 < query_sim qv ms i)
    ∧ (∀ qv ms topK, search_results qv ms topK
        = (search_hits qv ms topK).map (fun i => (ms.getD i default).data))
    ∧ (∀ st fault saveFails now qv topK,
        (load_memories st fault now).1.memories = [] →
        search_memories st fault saveFails now qv topK
          = ((load_memories st fault now).2, Except.ok [])) :=
  ⟨search_hits_length_le, search_hits_sorted,
    fun qv ms k i hi => search_hits_pos qv ms k i hi,
    fun _ _ _ => rfl,
    fun st fault sf now qv k h => search_empty st fault sf now qv k h⟩

/-- Witness for C3: searching a state with nothing cached and nothing stored
loads the empty collection and returns `ok []`. -/
theorem search_topk_sorted_positive_witness :
    (load_memories ⟨none, none⟩ LoadFault.ok 0).1.memories = []
    ∧ search_memories ⟨none, none⟩ LoadFault.ok false 0 [] 5
      = ((load_memories ⟨none, none⟩ LoadFault.ok 0).2, Except.ok []) :=
  ⟨rfl, search_topk_sorted_positive.2.2.2.2 ⟨none, none⟩ LoadFault.ok false 0 [] 5 rfl⟩

/-- C10: on a cached collection of at most 10 memories the deduplication
trigger is false, so search is read-only — the whole engine state (cache
entry included, hence also the persisted snapshot) is unchanged and the call
returns an ok result. -/
theorem search_readonly_le10 :
    ∀ st fault saveFails now qv topK c, st.cache = some c →
      c.memories.length ≤ 10 →
      (search_memories st fault saveFails now qv topK).1 = st
      ∧ ∃ rs, (search_memories st fault saveFails now qv topK).2 = Except.ok rs := by
  intro st fault sf now qv k c hc h10
  by_cases hne : c.memories = []
  · have hload : (load_memories st fault now).1.memories = [] := by
      rw [load_memories_cache_hit st fault now c hc]
      exact hne
    have h := search_empty st fault sf now qv k hload
    rw [load_memories_cache_hit st fault now c hc] at h
    rw [h]
    exact ⟨rfl, [], rfl⟩
  · have h := search_no_dedup st fault sf now qv k c hc hne
      (needs_dedup_le10 c now h10)
    rw [h]
    exact ⟨rfl, search_results qv c.memories k, rfl⟩

/-- Witness for C10 on a cached single-record collection. -/
theorem search_readonly_le10_witness :
    (search_memories
        ⟨some { memories := [memA], updated_at := 0, last_deduplicated_at := none },
          none⟩
        LoadFault.ok false 1 [] 3).1
      = ⟨some { memories := [memA], updated_at := 0, last_deduplicated_at := none },
          none⟩
    ∧ ∃ rs, (search_memories
        ⟨some { memories := [memA], updated_at := 0, last_deduplicated_at := none },
          none⟩
        LoadFault.ok false 1 [] 3).2 = Except.ok rs :=
  search_readonly_le10
    ⟨some { memories := [memA], updated_at := 0, last_deduplicated_at := none },
      none⟩
    LoadFault.ok false 1 [] 3 _ rfl (by simp)

unseal Rat.add Rat.mul Rat.inv Rat.sub in
/-- C4 counterexample: `add_memory` appends to the loaded collection object,
which is the very object stored in the cache, before `_save_memories`
uploads; hence when the upload raises, the cache has already changed and
holds the appended record — the claim that the cache is unchanged and does
not contain the record is false at this input. -/
theorem add_save_failure_cache_changed :
    (add_memory cachedEmptyState LoadFault.ok true 7 "has a cat" (1 / 2)
        "context" [] [1]).2 = Except.error ()
    ∧ (add_memory cachedEmptyState LoadFault.ok true 7 "has a cat" (1 / 2)
        "context" [] [1]).1.cache ≠ cachedEmptyState.cache
    ∧ (add_memory cachedEmptyState LoadFault.ok true 7 "has a cat" (1 / 2)
        "context" [] [1]).1.cache = some appendedColl := by
  refine ⟨rfl, ?_, by decide⟩
  decide

/-- C4 amended: persistence is attempted before the explicit cache-update
statement of `_save_memories`, but `add_memory` mutates the loaded — and
thereby cached — collection in place, so when saving raises a Failure the
call reports the error and leaves the bucket unwritten while the cache
already holds the appended record. -/
theorem add_save_failure_reports_error_cache_holds_record :
    ∀ st fault now content importance category topics emb,
      (add_memory st fault true now content importance category topics emb).2
        = Except.error ()
      ∧ (add_memory st fault true now content importance category topics emb).1.storage
        = st.storage
      ∧ ∃ c, (add_memory st fault true now content importance category
            topics emb).1.cache = some c
          ∧ mk_memory now content importance category topics emb ∈ c.memories := by
  intro st fault now content importance category topics emb
  refine ⟨rfl, ?_, ?_⟩
  · show (load_memories st fault now).2.storage = st.storage
    exact load_memories_storage st fault now
  · refine ⟨_, rfl, ?_⟩
    exact List.mem_append_right _ (List.mem_singleton.mpr rfl)

/-- C5 counterexample: a transient download failure is not propagated —
search silently proceeds on a fresh empty collection, returning `ok []`
despite a record being persisted — and a transient delete failure is not
propagated — `delete_all_memories` still reports success while the bucket
object survives. -/
theorem transient_faults_not_propagated :
    (search_memories storedState LoadFault.transientIOError false 5
        [1, 0, 0, 0] 5).2 = Except.ok []
    ∧ (delete_all_memories storedState true).2
      = "All long-term memories have been successfully deleted."
    ∧ (delete_all_memories storedState true).1.storage = storedState.storage :=
  ⟨rfl, rfl, rfl⟩

/-- C5 amended: only upload failures propagate as a Failure result (during
`add` always, during `search` when a due deduplication saves); a transient
download failure is swallowed like absence — search and add proceed on a
fresh empty collection — and a transient delete failure is swallowed, with
`delete_all_memories` reporting success. -/
theorem failure_handling_by_kind :
    (∀ st fault now content importance category topics emb,
      (add_memory st fault true now content importance category topics emb).2
        = Except.error ())
    ∧ (∀ st c now qv topK, st.cache = some c →
        needs_deduplication c now = true →
        (search_memories st LoadFault.ok true now qv topK).2 = Except.error ())
    ∧ (∀ st now qv topK saveFails, st.cache = none →
        search_memories st LoadFault.transientIOError saveFails now qv topK
          = ({ st with cache := some (freshCollection now) }, Except.ok []))
    ∧ (∀ st now content importance category topics emb, st.cache = none →
        (add_memory st LoadFault.transientIOError false now content importance
            category topics emb).2
          = Except.ok ("Memory successfully stored: " ++ content))
    ∧ (∀ st deleteFails, (delete_all_memories st deleteFails).2
        = "All long-term memories have been successfully deleted.") := by
  refine ⟨fun _ _ _ _ _ _ _ _ => rfl, ?_, ?_, fun _ _ _ _ _ _ _ _ => rfl,
    fun _ _ => rfl⟩
  · intro st c now qv topK hc hd
    have hne : c.memories ≠ [] := by
      intro hnil
      rw [needs_dedup_le10 c now (by rw [hnil]; simp)] at hd
      exact Bool.false_ne_true hd
    unfold search_memories
    rw [load_memories_cache_hit st LoadFault.ok now c hc]
    simp [hne, hd]
  · intro st now qv topK saveFails hc
    have hload : load_memories st LoadFault.transientIOError now
        = (freshCollection now, { st with cache := some (freshCollection now) }) := by
      unfold load_memories
      rw [hc]
    have h := search_empty st LoadFault.transientIOError saveFails now qv topK
      (by rw [hload]; rfl)

    rw [hload] at h
    exact h

/-- Witness for the amended C5: a transient download failure on an empty
state yields a fresh cached collection and `ok []`. -/
theorem failure_handling_by_kind_witness :
    (⟨none, none⟩ : EngineState).cache = none
    ∧ search_memories ⟨none, none⟩ LoadFault.transientIOError false 3 [] 1
      = (⟨some (freshCollection 3), none⟩, Except.ok []) :=
  ⟨rfl, failure_handling_by_kind.2.2.1 ⟨none, none⟩ 3 [] 1 false rfl⟩

/-- C8: `delete_all_memories` always reports success — absence of the
bucket object and even a failing delete call included — clears the cache
entry, succeeds again when called twice in a row, and a search on the state
left by a successful deletion loads a fresh empty collection and returns the
empty sequence. -/
theorem delete_idempotent_always_ok :
    ∀ st deleteFails fault saveFails now qv topK,
      (delete_all_memories st deleteFails).2
        = "All long-term memories have been successfully deleted."
      ∧ (delete_all_memories st deleteFails).1.cache = none
      ∧ (delete_all_memories (delete_all_memories st deleteFails).1 deleteFails).2
        = "All long-term memories have been successfully deleted."
      ∧ (search_memories (delete_all_memories st false).1 fault saveFails
          now qv topK).2 = Except.ok [] := by
  intro st b fault sf now qv k
  refine ⟨rfl, rfl, rfl, ?_⟩
  have hload : load_memories (delete_all_memories st false).1 fault now
      = (freshCollection now,
        { (delete_all_memories st false).1 with
            cache := some (freshCollection now) }) := by
    unfold load_memories delete_all_memories
    cases fault <;> rfl
  have h := search_empty (delete_all_memories st false).1 fault sf now qv k
    (by rw [hload]; rfl)
  rw [h]

lemma goodColl_fresh (now : ℚ) : GoodColl (freshCollection now) := by
  intro m hm
  simp [freshCollection] at hm

lemma load_memories_good (st : EngineState) (fault : LoadFault) (now : ℚ)
    (h : GoodState st) :
    GoodColl (load_memories st fault now).1
    ∧ GoodState (load_memories st fault now).2 := by
  obtain ⟨cache, storage⟩ := st
  cases cache with
  | some c =>
    rw [load_memories_cache_hit ⟨some c, storage⟩ fault now c rfl]
    exact ⟨h.1 c rfl, h⟩
  | none =>
    have hgood : ∀ x : MemoryCollection,
        GoodColl x → (∀ c', storage = some c' → GoodColl c') →
        GoodColl (x, (⟨some x, storage⟩ : EngineState)).1
        ∧ GoodState ((x, (⟨some x, storage⟩ : EngineState)).2) := by
      intro x hx hs
      refine ⟨hx, fun c' hc' => ?_, fun c' hc' => hs c' hc'⟩
      obtain rfl := Option.some.inj hc'
      exact hx
    cases fault with
    | ok =>
      cases storage with
      | some stored =>
        exact hgood stored (h.2 stored rfl) h.2
      | none =>
        exact hgood (freshCollection now) (goodColl_fresh now) h.2
    | transientIOError =>
      exact hgood (freshCollection now) (goodColl_fresh now) h.2
    | corruptData =>
      exact hgood (freshCollection now) (goodColl_fresh now) h.2

lemma add_memory_state (st : EngineState) (fault : LoadFault)
    (saveFails : Bool) (now : ℚ) (content : String) (importance : ℚ)
    (category : String) (topics : List String) (emb : List ℚ) :
    (add_memory st fault saveFails now content importance category
        topics emb).1
      = (if saveFails then
          { (load_memories st fault now).2 with
              cache := some (appendColl (load_memories st fault now).1 now
                (mk_memory now content importance category topics emb)) }
        else
          ⟨some (appendColl (load_memories st fault now).1 now
              (mk_memory now content importance category topics emb)),
            some (appendColl (load_memories st fault now).1 now
              (mk_memory now content importance category topics emb))⟩) := by
  unfold add_memory
  cases saveFails <;> rfl

/-- The state a search leaves behind: unchanged beyond the load, or with the
deduplicated collection in the cache (and, on a successful save, in the
bucket). -/
lemma search_memories_state (st : EngineState) (fault : LoadFault)
    (saveFails : Bool) (now : ℚ) (qv : List ℚ) (topK : ℕ) :
    (search_memories st fault saveFails now qv topK).1
        = (load_memories st fault now).2
    ∨ (search_memories st fault saveFails now qv topK).1
        = { (load_memories st fault now).2 with
            cache := some (dedupColl (load_memories st fault now).1 now) }
    ∨ (search_memories st fault saveFails now qv topK).1
        = ⟨some (dedupColl (load_memories st fault now).1 now),
            some (dedupColl (load_memories st fault now).1 now)⟩ := by
  unfold search_memories
  split_ifs
  · exact Or.inl rfl
  · exact Or.inr (Or.inl rfl)
  · exact Or.inr (Or.inr rfl)
  · exact Or.inl rfl

lemma delete_all_memories_state (st : EngineState) (deleteFails : Bool) :
    (delete_all_memories st deleteFails).1.cache = none
    ∧ ((delete_all_memories st deleteFails).1.storage = st.storage
      ∨ (delete_all_memories st deleteFails).1.storage = none) := by
  unfold delete_all_memories
  cases deleteFails
  · exact ⟨rfl, Or.inr rfl⟩
  · exact ⟨rfl, Or.inl rfl⟩

/-- C9: every state the engine can reach from the empty state — given that
every `add` call supplied an importance within `[0, 1]` — keeps every stored
record's importance within `[0, 1]`, in the cache and in the bucket. -/
theorem importance_range_invariant :
    ∀ st : EngineState, Reachable st → GoodState st := by
  intro st h
  induction h with
  | init =>
    exact ⟨fun c hc => by simp at hc, fun c hc => by simp at hc⟩
  | add st fault saveFails now content importance category topics emb
      hr h0 h1 ih =>
    obtain ⟨hload, hst⟩ := load_memories_good st fault now ih
    have hc2 : GoodColl (appendColl (load_memories st fault now).1 now
        (mk_memory now content importance category topics emb)) := by
      intro m hm
      rcases List.mem_append.mp hm with hm' | hm'
      · exact hload m hm'
      · rw [List.mem_singleton] at hm'
        subst hm'
        exact ⟨h0, h1⟩
    rw [add_memory_state st fault saveFails now content importance category
      topics emb]
    cases saveFails with
    | true =>
      rw [if_pos rfl]
      refine ⟨fun c' hc' => ?_, fun c' hc' => hst.2 c' hc'⟩
      obtain rfl := Option.some.inj hc'
      exact hc2
    | false =>
      rw [if_neg (by simp)]
      refine ⟨fun c' hc' => ?_, fun c' hc' => ?_⟩
      · obtain rfl := Option.some.inj hc'
        exact hc2
      · obtain rfl := Option.some.inj hc'
        exact hc2
  | search st fault saveFails now qv topK hr ih =>
    obtain ⟨hload, hst⟩ := load_memories_good st fault now ih
    have hded : GoodColl (dedupColl (load_memories st fault now).1 now) := by
      intro m hm
      exact hload m
        ((deduplicate_fast_sublist (load_memories st fault now).1.memories).subset hm)
    rcases search_memories_state st fault saveFails now qv topK with
      heq | heq | heq
    · rw [heq]; exact hst
    · rw [heq]
      refine ⟨fun c' hc' => ?_, fun c' hc' => hst.2 c' hc'⟩
      obtain rfl := Option.some.inj hc'
      exact hded
    · rw [heq]
      refine ⟨fun c' hc' => ?_, fun c' hc' => ?_⟩
      · obtain rfl := Option.some.inj hc'
        exact hded
      · obtain rfl := Option.some.inj hc'
        exact hded
  | delete st deleteFails hr ih =>
    obtain ⟨hcache, hstorage⟩ := delete_all_memories_state st deleteFails
    refine ⟨fun c' hc' => ?_, fun c' hc' => ?_⟩
    · rw [hcache] at hc'
      exact absurd hc' (by simp)
    · rcases hstorage with hs | hs
      · rw [hs] at hc'
        exact ih.2 c' hc'
      · rw [hs] at hc'
        exact absurd hc' (by simp)

/-- Witness for C9 at the initial state. -/
theorem importance_range_invariant_witness :
    Reachable (⟨none, none⟩ : EngineState)
    ∧ GoodState (⟨none, none⟩ : EngineState) :=
  ⟨Reachable.init, importance_range_invariant ⟨none, none⟩ Reachable.init⟩

end LTM

